import Mathlib

/-!
Verification of the meal-planner client scripts.

Shallow embedding of the four source files:
- `page/js/auth.js` — API-base auto-detection, session auth guard;
- `page/js/notifications.js` — badge rendering and the new-member diff;
- `page/js/user-header.js` — shared header widget with its logout handler;
- the family-code React view — clipboard copy/share with status messages.

Asynchronous behaviour is modelled by making the outcome of every network
probe an explicit parameter (a function from request to result), and the
page-wide mutable state (`API_BASE`, the readiness promise, browser
storage) an explicit state value threaded through the operations.
-/

/- ===== auth.js : API base resolver ===== -/

/-- Outcome of the raw `fetch(base + "/health")` call for one candidate:
either an HTTP response arriving at `time` milliseconds with status
`ok`/not-ok, or a network error at `time`. -/
inductive ProbeResult where
  | response (time : Nat) (ok : Bool)
  | netError (time : Nat)
deriving DecidableEq

/-- `fetchWithTimeout` from auth.js: the promise for one candidate resolves
(with the completion time) only when an ok response arrives before the
abort timer (`ms`, default 2500) fires; a bad status, a network error or
the timeout all reject (`none`). -/
def fetchWithTimeout (ms : Nat) : ProbeResult → Option Nat
  | .response t true => if t < ms then some t else none
  | .response _ false => none
  | .netError _ => none

/-- `hosts` from `detectApiBase`. -/
def hosts : List String := ["127.0.0.1", "localhost"]

/-- `ports` from `detectApiBase`. -/
def ports : List Nat := [8900, 8765, 8000]

/-- Candidate list built by `detectApiBase`: same-origin `/api` first when
the page is served over http(s) and `location.origin` is truthy (`origin =
none` models a falsy origin), then `{protocol}//{host}:{port}/api` for the
host/port grid, each pushed only if not already present (`includes`
check), so the list is deduplicated with order preserved. -/
def buildCandidates (protocol : String) (origin : Option String) : List String :=
  let start : List String :=
    if protocol.startsWith "http" then
      match origin with
      | some o => [o ++ "/api"]
      | none => []
    else []
  (hosts.flatMap fun h => ports.map fun p =>
      protocol ++ "//" ++ h ++ ":" ++ toString p ++ "/api").foldl
    (fun acc b => if b ∈ acc then acc else acc ++ [b]) start

/-- Of a fulfilled promise and the best outcome of the rest, the one that
fulfilled first (earlier-issued wins exact ties). -/
def raceBetter (b : String) (t : Nat) : Option (String × Nat) → Option (String × Nat)
  | none => some (b, t)
  | some (b2, t2) => if t ≤ t2 then some (b, t) else some (b2, t2)

/-- `Promise.any` over candidate promises tagged with their resolve times:
returns the value of the first promise to fulfil (minimal resolve time,
earlier-issued wins exact ties), or `none` when every promise rejects. -/
def promiseAny : List (String × Option Nat) → Option (String × Nat)
  | [] => none
  | (_, none) :: rest => promiseAny rest
  | (b, some t) :: rest => raceBetter b t (promiseAny rest)

/-- The hardcoded fallback `${PROTOCOL}//127.0.0.1:8900/api`. -/
def fallbackBase (protocol : String) : String := protocol ++ "//127.0.0.1:8900/api"

/-- Resolve time of one candidate's health probe under the 2500 ms timeout. -/
def resolveTime (probe : String → ProbeResult) (base : String) : Option Nat :=
  fetchWithTimeout 2500 (probe base)

/-- `detectApiBase` from auth.js: race all candidates' health probes with
`Promise.any`; publish the winner, or the hardcoded fallback when every
candidate fails or times out. -/
def detectApiBase (protocol : String) (origin : Option String)
    (probe : String → ProbeResult) : String :=
  match promiseAny ((buildCandidates protocol origin).map fun b => (b, resolveTime probe b)) with
  | some (w, _) => w
  | none => fallbackBase protocol

/- ===== auth.js : page-wide API_BASE state ===== -/

/-- Page-wide state of the resolver: `apiBase` is the `API_BASE` global
(`null` initially), `resolverPending` models `_resolveApiReady ≠ null`,
and `readySignaled` records whether the `API_READY` promise has resolved. -/
structure ApiState where
  apiBase : Option String
  resolverPending : Bool
  readySignaled : Bool
deriving DecidableEq

/-- State at script load: `API_BASE = null`, resolver armed, promise pending. -/
def initialApiState : ApiState := ⟨none, true, false⟩

/-- `setApiBase` from auth.js: unconditionally overwrites `API_BASE`, then
fires the readiness resolver if it is still armed and disarms it. -/
def setApiBase (s : ApiState) (base : String) : ApiState :=
  { apiBase := some base
    resolverPending := false
    readySignaled := s.readySignaled || s.resolverPending }

/-- `getApiBase` from auth.js, as observed at its resumption point: after
awaiting `API_READY` it returns the current `API_BASE`. -/
def getApiBase (s : ApiState) : Option String := s.apiBase

/-- JavaScript template-literal interpolation of a possibly-null string:
`null` prints as the four-character string. -/
def jsStr : Option String → String
  | none => "null"
  | some s => s

/-- URL built by `checkUnreadMessages` in notifications.js; it interpolates
the global `API_BASE` directly, without awaiting `API_READY`. -/
def checkUnreadMessagesUrl (s : ApiState) (userId : String) : String :=
  jsStr s.apiBase ++ "/messages/user/" ++ userId ++ "/unread-count"

/-- States of the resolver reachable during a page lifetime: the initial
state followed by any sequence of `setApiBase` calls. -/
inductive ApiReachable : ApiState → Prop where
  | init : ApiReachable initialApiState
  | set (s : ApiState) (b : String) : ApiReachable s → ApiReachable (setApiBase s b)

/- ===== auth.js : session storage and auth guard ===== -/

/-- The four storage entries auth.js manages (each `none` when the key is
absent); also reused for the localStorage scope touched by user-header.js. -/
structure SessionStore where
  currentUser : Option String
  userFamilies : Option String
  selectedFamily : Option String
  mealCodeData : Option String
deriving DecidableEq

/-- `clearUserData` from auth.js: removes all four keys. -/
def clearUserData (_ : SessionStore) : SessionStore := ⟨none, none, none, none⟩

/-- Outcome of the `GET /user/{user_id}` lookup in `checkUserAuth`. -/
inductive LookupResult where
  | ok
  | notOk
  | netError
deriving DecidableEq

/-- Result of one `checkUserAuth` run: the storage afterwards, the returned
user (its id; `none` for the null return), and whether a backend lookup
request was issued at all. -/
structure AuthCheckResult where
  store : SessionStore
  user : Option String
  lookupIssued : Bool
deriving DecidableEq

/-- `checkUserAuth` from auth.js: absent cached session returns null
without fetching; otherwise the user id is looked up and a non-ok
response or a thrown network error clears all user data and returns null. -/
def checkUserAuth (st : SessionStore) (lookup : String → LookupResult) : AuthCheckResult :=
  match st.currentUser with
  | none => ⟨st, none, false⟩
  | some uid =>
    match lookup uid with
    | .ok => ⟨st, some uid, true⟩
    | .notOk => ⟨clearUserData st, none, true⟩
    | .netError => ⟨clearUserData st, none, true⟩

/-- What `initAuth` does after the check: success callback, the supplied
error callback, or the default `redirectToLogin`. -/
inductive AuthOutcome where
  | success (uid : String)
  | errorHandler
  | redirectedToLogin
deriving DecidableEq

/-- `initAuth` from auth.js: runs `checkUserAuth`; on a user it calls
`onSuccess`, otherwise `onError` when supplied, else `redirectToLogin`
(which clears user data again and navigates). -/
def initAuth (st : SessionStore) (lookup : String → LookupResult) (hasOnError : Bool) :
    SessionStore × AuthOutcome :=
  let r := checkUserAuth st lookup
  match r.user with
  | some uid => (r.store, .success uid)
  | none =>
    if hasOnError then (r.store, .errorHandler)
    else (clearUserData r.store, .redirectedToLogin)

/- ===== notifications.js : badge rendering ===== -/

/-- A badge target element: the texts of its `.notification-badge` children
in document order, and whether it carries the `has-notification` class. -/
structure BadgeElement where
  badges : List String
  hasNotification : Bool
deriving DecidableEq

/-- Badge text: `count > 99 ? "99+" : count`. -/
def renderBadgeText (count : Nat) : String :=
  if count > 99 then "99+" else toString count

/-- `element.querySelector(".notification-badge")` followed by `.remove()`:
drops the first badge child if any. -/
def removeFirstBadge : List String → List String
  | [] => []
  | _ :: rest => rest

/-- `updateBadge` from notifications.js: null element is a no-op; otherwise
remove the existing badge, then for a positive count add the class and
append one badge, else drop the class. -/
def updateBadge (el : Option BadgeElement) (count : Nat) : Option BadgeElement :=
  match el with
  | none => none
  | some e =>
    let remaining := removeFirstBadge e.badges
    if count > 0 then
      some ⟨remaining ++ [renderBadgeText count], true⟩
    else
      some ⟨remaining, false⟩

/- ===== notifications.js : new-member diff ===== -/

/-- The serialized pair `${family_id}:${user_id}`. -/
def pairKey (p : String × String) : String := p.1 ++ ":" ++ p.2

/-- JavaScript default string comparison: lexicographic on code units. -/
def charListLe : List Char → List Char → Bool
  | [], _ => true
  | _ :: _, [] => false
  | a :: as, b :: bs =>
    if a.toNat < b.toNat then true
    else if b.toNat < a.toNat then false
    else charListLe as bs

/-- String order used by `Array.prototype.sort()` on strings. -/
def strLe (a b : String) : Bool := charListLe a.data b.data

/-- Insertion step of the sort model. -/
def insertSorted (a : String) : List String → List String
  | [] => [a]
  | b :: bs => if strLe a b then a :: b :: bs else b :: insertSorted a bs

/-- `.sort()` on an array of strings (modelled as insertion sort over the
JS comparator; only the resulting order matters). -/
def sortStrings (l : List String) : List String := l.foldr insertSorted []

/-- `.join(",")`. -/
def joinComma : List String → String
  | [] => ""
  | [s] => s
  | s :: rest => s ++ "," ++ joinComma rest

/-- Prepend a character to the first group of a split. -/
def consHead (c : Char) : List (List Char) → List (List Char)
  | [] => [[c]]
  | g :: gs => (c :: g) :: gs

/-- `.split(",")` at the character level; note `"".split(",")` is `[""]`. -/
def splitCommaList : List Char → List (List Char)
  | [] => [[]]
  | c :: cs =>
    if c = ',' then [] :: splitCommaList cs
    else consHead c (splitCommaList cs)

/-- `.split(",")` on strings. -/
def splitComma (s : String) : List String :=
  (splitCommaList s.data).map String.mk

/-- The canonical membership key: serialize each pair, sort, join by commas
(`currentMembersKey` in notifications.js). -/
def membersKeyOf (pairs : List (String × String)) : String :=
  joinComma (sortStrings (pairs.map pairKey))

/-- Outcome of one `await fetch` + `await .json()` step: an ok response
with parsed body, a non-ok response, or a rejection — the fetch promise
rejected or `.json()` threw — which propagates to the enclosing catch. -/
inductive FetchJson (α : Type) where
  | ok (val : α)
  | notOk
  | thrown
deriving DecidableEq

/-- Backend responses consumed by one `checkNewMembers` cycle: the
`GET /user/{id}/families` step, and per family the
`GET /family/{id}/members` step. -/
structure MembersBackend where
  familiesResp : FetchJson (List String)
  membersResp : String → FetchJson (List String)

/-- The member-gathering loop of `checkNewMembers`: an ok members fetch
contributes its `(family_id, user_id)` pairs, a non-ok response is
skipped (the `if (membersResponse.ok)` guard), and a thrown step aborts
the whole function into its catch (`none`). -/
def gatherMembers (bk : MembersBackend) : List String → Option (List (String × String))
  | [] => some []
  | f :: rest =>
    match bk.membersResp f with
    | .thrown => none
    | .notOk => gatherMembers bk rest
    | .ok ms => (gatherMembers bk rest).map fun tail => (ms.map fun u => (f, u)) ++ tail

/-- The pairs gathered by a loop in which every member fetch completes (ok
or non-ok response, nothing thrown): for each family whose members fetch
is ok, the `(family_id, user_id)` pairs in response order. -/
def allCurrentMembers (bk : MembersBackend) (fams : List String) : List (String × String) :=
  fams.flatMap fun f =>
    match bk.membersResp f with
    | .ok ms => ms.map fun u => (f, u)
    | .notOk => []
    | .thrown => []

/-- Result of one `checkNewMembers` cycle: the returned count and the value
stored under `family_members_{userId}` afterwards. -/
structure MemberCheckResult where
  count : Nat
  storedAfter : Option String
deriving DecidableEq

/-- The counting loop: distinct current ids (`Set` semantics) that the
stored set does not contain. -/
def countNewIds (lastIds curIds : List String) : Nat :=
  (curIds.dedup.filter fun m => decide (m ∉ lastIds)).length

/-- `checkNewMembers` from notifications.js, with the fetch outcomes and the
prior `localStorage` value explicit: a non-ok or thrown families fetch,
an empty family list, or a thrown member fetch (function-level catch)
returns 0 leaving storage untouched; a missing baseline — the JS guard
`!lastViewedMembers` is also taken by a stored empty string — seeds
storage with the current key and returns 0; otherwise the split keys are
diffed. -/
def checkNewMembers (bk : MembersBackend) (stored : Option String) : MemberCheckResult :=
  match bk.familiesResp with
  | .notOk => ⟨0, stored⟩
  | .thrown => ⟨0, stored⟩
  | .ok fams =>
    if fams.length = 0 then ⟨0, stored⟩
    else
      match gatherMembers bk fams with
      | none => ⟨0, stored⟩
      | some pairs =>
        let key := membersKeyOf pairs
        match stored with
        | none => ⟨0, some key⟩
        | some last =>
          if last = "" then ⟨0, some key⟩
          else ⟨countNewIds (splitComma last) (splitComma key), some last⟩

/- ===== family-code view : clipboard ===== -/

/-- Outcome of `navigator.clipboard.writeText`. -/
inductive ClipboardResult where
  | ok
  | err
deriving DecidableEq

/-- Observable effect of one `copyToClipboard` call: the status message set,
and the delay of the `setTimeout` scheduled to clear it, if any. -/
structure CopyOutcome where
  message : String
  clearDelayMs : Option Nat
deriving DecidableEq

/-- `copyToClipboard` from the family-code view: on success it sets the
message and schedules a 3000 ms clear; on failure it sets the failure
message and schedules nothing. -/
def copyToClipboard : ClipboardResult → CopyOutcome
  | .ok => ⟨"Family code copied to clipboard!", some 3000⟩
  | .err => ⟨"Failed to copy to clipboard", none⟩

/- ===== user-header.js : logout handler ===== -/

/-- Page state touched by the header's logout handler: the device-local
storage (`localStorage`), the tab's session storage (`sessionStorage`),
and the current location. -/
structure PageState where
  localStore : SessionStore
  sessionStore : SessionStore
  location : String
deriving DecidableEq

/-- The `logoutBtn` click handler in user-header.js: removes `currentUser`,
`userFamilies` and `selectedFamily` from `localStorage` and navigates to
`index.html`; it touches nothing else. -/
def headerLogoutClick (st : PageState) : PageState :=
  { st with
    localStore := { st.localStore with
      currentUser := none, userFamilies := none, selectedFamily := none }
    location := "index.html" }

/- ===== concrete instances used by witnesses and counterexamples ===== -/

/-- A backend where the lookup of any user id fails with a non-ok status. -/
def lookupAlwaysMissing : String → LookupResult := fun _ => .notOk

/-- Backend for the first-ever-check witness: one family `F1` with one
member `U1`, every fetch completing. -/
def firstCheckBackend : MembersBackend :=
  ⟨.ok ["F1"], fun f => if f = "F1" then .ok ["U1"] else .notOk⟩

/-- Backend for the C5 instance: one family `F1` whose members are
`U1`, `U2`, `U3`, every fetch completing. -/
def grownFamilyBackend : MembersBackend :=
  ⟨.ok ["F1"], fun f => if f = "F1" then .ok ["U1", "U2", "U3"] else .notOk⟩

/-- Baseline membership for the C5 instance: `{F1:U1, F1:U2}`. -/
def baselinePairs : List (String × String) := [("F1", "U1"), ("F1", "U2")]

/-- Backend for the C5 counterexample: the families fetch succeeds with one
family but that family's members fetch answers non-ok, so the gather
completes empty. -/
def failingMembersBackend : MembersBackend := ⟨.ok ["F1"], fun _ => .notOk⟩

/- ===== Claim C2 ===== -/

/-- Claim C2 counterexample: `setApiBase` is last-writer-wins, not
write-once — a second call with a different base changes the value
observed by readers. -/
theorem setApiBase_second_call_changes_value :
    (setApiBase (setApiBase initialApiState "http://a/api") "http://b/api").apiBase
        = some "http://b/api" ∧
      ("http://b/api" : String) ≠ "http://a/api" := by
  exact ⟨rfl, by decide⟩

/-- Claim C2 (amended): re-invoking `setApiBase` with the same value is a
no-op on the whole resolver state, and however a second call is made, the
readiness signal does not fire again (the resolver is disarmed by the
first call); the value itself is last-writer-wins. -/
theorem setApiBase_idempotent_and_signal_once (s : ApiState) (b b2 : String) :
    setApiBase (setApiBase s b) b = setApiBase s b ∧
      (setApiBase (setApiBase s b) b2).readySignaled = (setApiBase s b).readySignaled ∧
      (setApiBase (setApiBase s b) b2).resolverPending = false := by
  refine ⟨?_, ?_, rfl⟩ <;> simp [setApiBase]

/- ===== Claim C4 ===== -/

/-- Claim C4: a cached session whose user id the backend lookup does not
confirm (non-ok response or network failure) has all four session keys
removed, the check returns null, and `initAuth` invokes the supplied
error handler, or the default redirect to login when none is supplied. -/
theorem checkUserAuth_invalid_session (st : SessionStore) (lookup : String → LookupResult)
    (uid : String) (hasOnError : Bool)
    (hcache : st.currentUser = some uid) (hbad : lookup uid ≠ .ok) :
    (checkUserAuth st lookup).store = ⟨none, none, none, none⟩ ∧
      (checkUserAuth st lookup).user = none ∧
      (initAuth st lookup hasOnError).1 = ⟨none, none, none, none⟩ ∧
      (initAuth st lookup hasOnError).2 =
        (if hasOnError then .errorHandler else .redirectedToLogin) := by
  have hcheck : checkUserAuth st lookup = ⟨⟨none, none, none, none⟩, none, true⟩ := by
    cases hl : lookup uid with
    | ok => exact absurd hl hbad
    | notOk => simp [checkUserAuth, hcache, hl, clearUserData]
    | netError => simp [checkUserAuth, hcache, hl, clearUserData]
  have hinit : initAuth st lookup hasOnError
      = if hasOnError then (⟨none, none, none, none⟩, .errorHandler)
        else (⟨none, none, none, none⟩, .redirectedToLogin) := by
    cases hasOnError <;> simp [initAuth, hcheck, clearUserData]
  refine ⟨by rw [hcheck], by rw [hcheck], ?_, ?_⟩ <;>
    cases hasOnError <;> simp [hinit]

/-- Claim C4 witness: a concrete populated session store and a backend that
does not know the user. -/
theorem checkUserAuth_invalid_session_witness :
    (⟨some "u7", some "fams", some "fam", some "meal"⟩ : SessionStore).currentUser
        = some "u7" ∧
      lookupAlwaysMissing "u7" ≠ .ok ∧
      ((checkUserAuth ⟨some "u7", some "fams", some "fam", some "meal"⟩
            lookupAlwaysMissing).store = ⟨none, none, none, none⟩ ∧
        (checkUserAuth ⟨some "u7", some "fams", some "fam", some "meal"⟩
            lookupAlwaysMissing).user = none ∧
        (initAuth ⟨some "u7", some "fams", some "fam", some "meal"⟩
            lookupAlwaysMissing false).1 = ⟨none, none, none, none⟩ ∧
        (initAuth ⟨some "u7", some "fams", some "fam", some "meal"⟩
            lookupAlwaysMissing false).2 =
          (if false then .errorHandler else .redirectedToLogin)) :=
  ⟨rfl, by decide,
    checkUserAuth_invalid_session ⟨some "u7", some "fams", some "fam", some "meal"⟩
      lookupAlwaysMissing "u7" false rfl (by decide)⟩

/- ===== Claim C7 ===== -/

/-- Claim C7: on an element carrying at most one badge (the invariant
`updateBadge` itself maintains, last conjunct), rendering count 0 leaves
no badge child and no `has-notification` class; a positive count leaves
exactly one badge whose text is the count for counts up to 99 and `99+`
above 99. -/
theorem updateBadge_rendering (e : BadgeElement) (count : Nat)
    (h : e.badges.length ≤ 1) :
    (count = 0 → updateBadge (some e) count = some ⟨[], false⟩) ∧
      (0 < count → updateBadge (some e) count = some ⟨[renderBadgeText count], true⟩) ∧
      (count ≤ 99 → renderBadgeText count = toString count) ∧
      (99 < count → renderBadgeText count = "99+") ∧
      (∀ e2, updateBadge (some e) count = some e2 → e2.badges.length ≤ 1) := by
  have hrem : removeFirstBadge e.badges = [] := by
    match hb : e.badges with
    | [] => rfl
    | [x] => rfl
    | x :: y :: t => rw [hb] at h; simp at h
  have hval : updateBadge (some e) count
      = some (if 0 < count then ⟨[renderBadgeText count], true⟩ else ⟨[], false⟩) := by
    by_cases hpos : 0 < count <;> simp [updateBadge, hrem, hpos]
  refine ⟨?_, ?_, ?_, ?_, ?_⟩
  · intro h0
    rw [hval]
    simp [h0]
  · intro hpos
    rw [hval]
    simp [hpos]
  · intro hle
    simp [renderBadgeText, Nat.not_lt.mpr hle]
  · intro hgt
    simp [renderBadgeText, hgt]
  · intro e2 he2
    rw [hval] at he2
    rw [← Option.some.inj he2]
    by_cases hpos : 0 < count <;> simp [hpos]

/-- Claim C7 witness: an element already carrying one badge, re-rendered
with count 150, ends with the single badge text `99+`. -/
theorem updateBadge_rendering_witness :
    (⟨["5"], true⟩ : BadgeElement).badges.length ≤ 1 ∧
      ((150 = 0 → updateBadge (some ⟨["5"], true⟩) 150 = some ⟨[], false⟩) ∧
        (0 < 150 → updateBadge (some ⟨["5"], true⟩) 150
            = some ⟨[renderBadgeText 150], true⟩) ∧
        (150 ≤ 99 → renderBadgeText 150 = toString 150) ∧
        (99 < 150 → renderBadgeText 150 = "99+") ∧
        (∀ e2, updateBadge (some ⟨["5"], true⟩) 150 = some e2 →
          e2.badges.length ≤ 1)) ∧
      renderBadgeText 150 = "99+" :=
  ⟨by decide, updateBadge_rendering ⟨["5"], true⟩ 150 (by decide), by decide⟩

/- ===== Claim C8 ===== -/

/-- Claim C8 counterexample: on clipboard failure a status message is set
but no clearing timer is scheduled, so the failure message does not
self-clear after 3 seconds. -/
theorem copy_failure_message_not_cleared :
    (copyToClipboard .err).message = "Failed to copy to clipboard" ∧
      (copyToClipboard .err).clearDelayMs = none :=
  ⟨rfl, rfl⟩

/-- Claim C8 (amended): both outcomes of the clipboard write produce a
user-visible status message, but only the success message self-clears
(3000 ms timer); the failure message persists, no timer is scheduled. -/
theorem copyToClipboard_message_lifecycle :
    copyToClipboard .ok = ⟨"Family code copied to clipboard!", some 3000⟩ ∧
      copyToClipboard .err = ⟨"Failed to copy to clipboard", none⟩ :=
  ⟨rfl, rfl⟩

/- ===== Claim C9 ===== -/

/-- Claim C9 counterexample: activating the header's logout link on a page
whose storages are fully populated leaves the session-scoped storage
(including `currentUser` and `mealCodeData`) entirely untouched — the
handler only removes three keys from device-local storage. -/
theorem header_logout_leaves_session_state :
    (headerLogoutClick
          ⟨⟨some "u", some "fams", some "fam", some "meal"⟩,
            ⟨some "u", some "fams", some "fam", some "meal"⟩, "home.html"⟩).sessionStore
        = ⟨some "u", some "fams", some "fam", some "meal"⟩ ∧
      (headerLogoutClick
          ⟨⟨some "u", some "fams", some "fam", some "meal"⟩,
            ⟨some "u", some "fams", some "fam", some "meal"⟩, "home.html"⟩).localStore.mealCodeData
        = some "meal" :=
  ⟨rfl, rfl⟩

/-- Claim C9 (amended): the header's logout handler removes exactly
`currentUser`, `userFamilies` and `selectedFamily` from device-local
storage and navigates to the login page; `mealCodeData` and every
session-scoped entry are left as they were. -/
theorem headerLogoutClick_effect (st : PageState) :
    (headerLogoutClick st).localStore.currentUser = none ∧
      (headerLogoutClick st).localStore.userFamilies = none ∧
      (headerLogoutClick st).localStore.selectedFamily = none ∧
      (headerLogoutClick st).localStore.mealCodeData = st.localStore.mealCodeData ∧
      (headerLogoutClick st).sessionStore = st.sessionStore ∧
      (headerLogoutClick st).location = "index.html" :=
  ⟨rfl, rfl, rfl, rfl, rfl, rfl⟩

/- ===== Claim C10 ===== -/

/-- Claim C10: with no cached session entry, `checkUserAuth` returns null,
issues no lookup request, and leaves the storage exactly as it was. -/
theorem checkUserAuth_absent_session (st : SessionStore) (lookup : String → LookupResult)
    (h : st.currentUser = none) :
    checkUserAuth st lookup = ⟨st, none, false⟩ := by
  unfold checkUserAuth
  rw [h]

/-- Claim C10 witness: a store with no `currentUser` but the other three
keys populated is returned untouched, with no request issued. -/
theorem checkUserAuth_absent_session_witness :
    (⟨none, some "fams", some "fam", some "meal"⟩ : SessionStore).currentUser = none ∧
      checkUserAuth ⟨none, some "fams", some "fam", some "meal"⟩ lookupAlwaysMissing
        = ⟨⟨none, some "fams", some "fam", some "meal"⟩, none, false⟩ :=
  ⟨rfl, checkUserAuth_absent_session ⟨none, some "fams", some "fam", some "meal"⟩
    lookupAlwaysMissing rfl⟩

/- ===== Claim C1 ===== -/

/-- `Promise.any` rejects exactly when every constituent promise rejects. -/
theorem promiseAny_eq_none_iff (xs : List (String × Option Nat)) :
    promiseAny xs = none ↔ ∀ p ∈ xs, p.2 = none := by
  induction xs with
  | nil => simp [promiseAny]
  | cons hd tl ih =>
    obtain ⟨b, r⟩ := hd
    cases r with
    | none => simpa [promiseAny] using ih
    | some t =>
      cases h : promiseAny tl with
      | none => simp [promiseAny, raceBetter, h]
      | some pr =>
        obtain ⟨b2, t2⟩ := pr
        by_cases ht : t ≤ t2 <;> simp [promiseAny, raceBetter, h, ht]

/-- The value `Promise.any` fulfils with belongs to the list and resolved
no later than any other fulfilled promise in the list. -/
theorem promiseAny_eq_some (xs : List (String × Option Nat)) (b : String) (t : Nat)
    (h : promiseAny xs = some (b, t)) :
    (b, some t) ∈ xs ∧ ∀ p ∈ xs, ∀ t2, p.2 = some t2 → t ≤ t2 := by
  induction xs generalizing b t with
  | nil => simp [promiseAny] at h
  | cons hd tl ih =>
    obtain ⟨b0, r⟩ := hd
    cases r with
    | none =>
      obtain ⟨hmem, hmin⟩ := ih b t h
      refine ⟨List.mem_cons_of_mem _ hmem, ?_⟩
      intro p hp t2 ht2
      rcases List.mem_cons.mp hp with hp | hp
      · rw [hp] at ht2
        exact absurd ht2 (by simp)
      · exact hmin p hp t2 ht2
    | some t0 =>
      cases hh : promiseAny tl with
      | none =>
        have hred : promiseAny ((b0, some t0) :: tl) = some (b0, t0) := by
          simp [promiseAny, raceBetter, hh]
        rw [hred] at h
        have h2 : (b0, t0) = (b, t) := Option.some.inj h
        injection h2 with hb ht
        subst hb
        subst ht
        refine ⟨List.mem_cons_self _ _, ?_⟩
        intro p hp t2 ht2
        rcases List.mem_cons.mp hp with hp | hp
        · rw [hp] at ht2
          simp at ht2
          omega
        · have := (promiseAny_eq_none_iff tl).mp hh p hp
          rw [this] at ht2
          exact absurd ht2 (by simp)
      | some pr =>
        obtain ⟨b2, t2⟩ := pr
        obtain ⟨hmem2, hmin2⟩ := ih b2 t2 hh
        by_cases hle : t0 ≤ t2
        · have hred : promiseAny ((b0, some t0) :: tl) = some (b0, t0) := by
            simp [promiseAny, raceBetter, hh, hle]
          rw [hred] at h
          have h2 : (b0, t0) = (b, t) := Option.some.inj h
          injection h2 with hb ht
          subst hb
          subst ht
          refine ⟨List.mem_cons_self _ _, ?_⟩
          intro p hp t3 ht3
          rcases List.mem_cons.mp hp with hp | hp
          · rw [hp] at ht3
            simp at ht3
            omega
          · exact le_trans hle (hmin2 p hp t3 ht3)
        · have hred : promiseAny ((b0, some t0) :: tl) = some (b2, t2) := by
            simp [promiseAny, raceBetter, hh, hle]
          rw [hred] at h
          have h2 : (b2, t2) = (b, t) := Option.some.inj h
          injection h2 with hb ht
          subst hb
          subst ht
          refine ⟨List.mem_cons_of_mem _ hmem2, ?_⟩
          intro p hp t3 ht3
          rcases List.mem_cons.mp hp with hp | hp
          · rw [hp] at ht3
            simp at ht3
            omega
          · exact hmin2 p hp t3 ht3

/-- Claim C1: over any set of health-check outcomes for the candidate list,
`detectApiBase` either takes the fallback branch — publishing the
hardcoded `{protocol}//127.0.0.1:8900/api` — exactly when every
candidate's probe fails or times out, or it publishes a candidate whose
probe succeeded within the 2500 ms timeout no later than every other
successful candidate (first finished successfully — a characterization
independent of the order requests were issued). -/
theorem detectApiBase_first_success_or_fallback (protocol : String)
    (origin : Option String) (probe : String → ProbeResult) :
    (detectApiBase protocol origin probe = fallbackBase protocol ∧
        ∀ b ∈ buildCandidates protocol origin, resolveTime probe b = none) ∨
      (detectApiBase protocol origin probe ∈ buildCandidates protocol origin ∧
        ∃ t, resolveTime probe (detectApiBase protocol origin probe) = some t ∧
          ∀ b ∈ buildCandidates protocol origin,
            ∀ t2, resolveTime probe b = some t2 → t ≤ t2) := by
  cases h : promiseAny ((buildCandidates protocol origin).map
      fun b => (b, resolveTime probe b)) with
  | none =>
    left
    have hdet : detectApiBase protocol origin probe = fallbackBase protocol := by
      unfold detectApiBase
      rw [h]
    refine ⟨hdet, ?_⟩
    intro b hb
    exact (promiseAny_eq_none_iff _).mp h (b, resolveTime probe b)
      (List.mem_map_of_mem _ hb)
  | some pr =>
    obtain ⟨w, t⟩ := pr
    right
    have hdet : detectApiBase protocol origin probe = w := by
      unfold detectApiBase
      rw [h]
    obtain ⟨hmem, hmin⟩ := promiseAny_eq_some _ _ _ h
    obtain ⟨c, hc, heq⟩ := List.mem_map.mp hmem
    have hcw : c = w := congrArg Prod.fst heq
    have hct : resolveTime probe c = some t := congrArg Prod.snd heq
    subst hcw
    rw [hdet]
    refine ⟨hc, t, hct, ?_⟩
    intro b hb t2 ht2
    exact hmin (b, resolveTime probe b) (List.mem_map_of_mem _ hb) t2 ht2

/- ===== Claim C3 ===== -/

/-- Claim C3 counterexample: before the resolver has written the base, the
notification poller's unread-count fetch — which reads the global
`API_BASE` directly instead of awaiting the readiness signal — issues a
backend request whose URL interpolates the unset (null) base. -/
theorem checkUnreadMessages_uses_unset_base :
    initialApiState.apiBase = none ∧
      checkUnreadMessagesUrl initialApiState "u1"
        = "null/messages/user/u1/unread-count" :=
  ⟨rfl, rfl⟩

/-- Claim C3 (amended): readers that await the readiness signal never
observe an unset base — in every reachable resolver state where
`API_READY` has fired, `API_BASE` holds a value and `getApiBase` returns
it; the notification poller's fetches, however, read the global directly
and can observe the unset base when run before resolution. -/
theorem getApiBase_after_ready_signaled (s : ApiState) (hr : ApiReachable s)
    (hsig : s.readySignaled = true) :
    ∃ b, s.apiBase = some b ∧ getApiBase s = some b := by
  cases hr with
  | init => exact absurd hsig (by simp [initialApiState])
  | set s0 b _ => exact ⟨b, rfl, rfl⟩

/-- Claim C3 witness: the state right after the resolver publishes a base
has the signal fired, and the awaited read observes that base. -/
theorem getApiBase_after_ready_signaled_witness :
    ApiReachable (setApiBase initialApiState "http://x/api") ∧
      (setApiBase initialApiState "http://x/api").readySignaled = true ∧
      ∃ b, (setApiBase initialApiState "http://x/api").apiBase = some b ∧
        getApiBase (setApiBase initialApiState "http://x/api") = some b :=
  ⟨.set _ _ .init, rfl,
    getApiBase_after_ready_signaled _ (.set _ _ .init) rfl⟩

/- ===== Claims C5 and C6 : supporting lemmas ===== -/

/-- Splitting the concatenation at the first comma peels off the comma-free
prefix as one group. -/
theorem splitCommaList_append (a t : List Char) (h : ',' ∉ a) :
    splitCommaList (a ++ ',' :: t) = a :: splitCommaList t := by
  induction a with
  | nil => simp [splitCommaList]
  | cons c a2 ih =>
    have hc : ¬(c = ',') := fun e => h (e ▸ List.mem_cons_self c a2)
    have ha : ',' ∉ a2 := fun hm => h (List.mem_cons_of_mem _ hm)
    simp [splitCommaList, hc, ih ha, consHead]

/-- A comma-free character list splits into the single group itself. -/
theorem splitCommaList_no_comma (a : List Char) (h : ',' ∉ a) :
    splitCommaList a = [a] := by
  induction a with
  | nil => rfl
  | cons c a2 ih =>
    have hc : ¬(c = ',') := fun e => h (e ▸ List.mem_cons_self c a2)
    have ha : ',' ∉ a2 := fun hm => h (List.mem_cons_of_mem _ hm)
    simp [splitCommaList, hc, ih ha, consHead]

/-- Character data of a `.join(",")` with at least two groups. -/
theorem joinComma_cons_cons (s r : String) (rest : List String) :
    (joinComma (s :: r :: rest)).data = s.data ++ ',' :: (joinComma (r :: rest)).data := by
  show (s ++ "," ++ joinComma (r :: rest)).data = s.data ++ ',' :: (joinComma (r :: rest)).data
  rw [String.data_append, String.data_append]
  simp

/-- `.split(",")` inverts `.join(",")` on a nonempty list of comma-free
strings. -/
theorem splitComma_joinComma (l : List String) (h : l ≠ [])
    (hc : ∀ s ∈ l, ',' ∉ s.data) :
    splitComma (joinComma l) = l := by
  induction l with
  | nil => exact absurd rfl h
  | cons s rest ih =>
    cases rest with
    | nil =>
      show (splitCommaList (joinComma [s]).data).map String.mk = [s]
      have hj : joinComma [s] = s := rfl
      rw [hj, splitCommaList_no_comma s.data (hc s (List.mem_cons_self s []))]
      rfl
    | cons r rest2 =>
      show (splitCommaList (joinComma (s :: r :: rest2)).data).map String.mk = s :: r :: rest2
      rw [joinComma_cons_cons,
        splitCommaList_append s.data _ (hc s (List.mem_cons_self s _))]
      have htail : (splitCommaList (joinComma (r :: rest2)).data).map String.mk
          = r :: rest2 :=
        ih (by simp) (fun x hx => hc x (List.mem_cons_of_mem _ hx))
      show String.mk s.data :: (splitCommaList (joinComma (r :: rest2)).data).map String.mk
          = s :: r :: rest2
      rw [htail]

/-- Inserting into the sorted tail is a permutation of consing. -/
theorem insertSorted_perm (a : String) (l : List String) :
    (insertSorted a l).Perm (a :: l) := by
  induction l with
  | nil => exact List.Perm.refl _
  | cons b bs ih =>
    by_cases hle : strLe a b = true
    · simp [insertSorted, hle]
    · have : insertSorted a (b :: bs) = b :: insertSorted a bs := by
        simp [insertSorted, hle]
      rw [this]
      exact (ih.cons b).trans (List.Perm.swap a b bs)

/-- The sort used for the canonical key is a permutation of its input. -/
theorem sortStrings_perm (l : List String) : (sortStrings l).Perm l := by
  induction l with
  | nil => exact List.Perm.refl _
  | cons s rest ih =>
    have hs : sortStrings (s :: rest) = insertSorted s (sortStrings rest) := rfl
    rw [hs]
    exact (insertSorted_perm s (sortStrings rest)).trans (ih.cons s)

/-- Deduplication commutes with mapping an injective-on-the-list function. -/
theorem dedup_map_injOn {α β : Type} [DecidableEq α] [DecidableEq β]
    (f : α → β) (l : List α)
    (hinj : ∀ x ∈ l, ∀ y ∈ l, f x = f y → x = y) :
    (l.map f).dedup = l.dedup.map f := by
  induction l with
  | nil => rfl
  | cons a tl ih =>
    have hinj2 : ∀ x ∈ tl, ∀ y ∈ tl, f x = f y → x = y :=
      fun x hx y hy => hinj x (List.mem_cons_of_mem _ hx) y (List.mem_cons_of_mem _ hy)
    by_cases hmem : a ∈ tl
    · have hfmem : f a ∈ tl.map f := List.mem_map_of_mem f hmem
      rw [List.map_cons, List.dedup_cons_of_mem hfmem, List.dedup_cons_of_mem hmem,
        ih hinj2]
    · have hfmem : f a ∉ tl.map f := by
        intro hf
        obtain ⟨x, hx, hfx⟩ := List.mem_map.mp hf
        have hxa : x = a :=
          hinj x (List.mem_cons_of_mem _ hx) a (List.mem_cons_self _ _) hfx
        exact hmem (hxa ▸ hx)
      rw [List.map_cons, List.dedup_cons_of_not_mem hfmem,
        List.dedup_cons_of_not_mem hmem, List.map_cons, ih hinj2]

/-- Character data of the serialized pair. -/
theorem pairKey_data (p : String × String) :
    (pairKey p).data = p.1.data ++ ':' :: p.2.data := by
  show (p.1 ++ ":" ++ p.2).data = p.1.data ++ ':' :: p.2.data
  rw [String.data_append, String.data_append]
  simp

/-- Concatenations around a colon are injective when the prefixes are
colon-free. -/
theorem append_colon_inj (a : List Char) :
    ∀ c b d : List Char, ':' ∉ a → ':' ∉ c →
      a ++ ':' :: b = c ++ ':' :: d → a = c ∧ b = d := by
  induction a with
  | nil =>
    intro c b d _ hc h
    cases c with
    | nil =>
      simp only [List.nil_append] at h
      exact ⟨rfl, (List.cons.injEq _ _ _ _).mp h |>.2⟩
    | cons x c2 =>
      simp only [List.nil_append, List.cons_append] at h
      obtain ⟨hx, _⟩ := (List.cons.injEq _ _ _ _).mp h
      exact absurd (hx ▸ List.mem_cons_self x c2) hc
  | cons x a2 ih =>
    intro c b d ha hc h
    cases c with
    | nil =>
      simp only [List.cons_append, List.nil_append] at h
      obtain ⟨hx, _⟩ := (List.cons.injEq _ _ _ _).mp h
      exact absurd (hx ▸ List.mem_cons_self x a2) (fun hm => ha ((hx.symm ▸ hm : ':' ∈ x :: a2)))
    | cons y c2 =>
      simp only [List.cons_append] at h
      obtain ⟨hxy, htail⟩ := (List.cons.injEq _ _ _ _).mp h
      have ha2 : ':' ∉ a2 := fun hm => ha (List.mem_cons_of_mem _ hm)
      have hc2 : ':' ∉ c2 := fun hm => hc (List.mem_cons_of_mem _ hm)
      obtain ⟨h1, h2⟩ := ih c2 b d ha2 hc2 htail
      exact ⟨by rw [hxy, h1], h2⟩

/-- The pair serialization is injective on pairs whose family id is
colon-free. -/
theorem pairKey_inj (p q : String × String)
    (hp : ':' ∉ p.1.data) (hq : ':' ∉ q.1.data)
    (h : pairKey p = pairKey q) : p = q := by
  have hd : (pairKey p).data = (pairKey q).data := congrArg String.data h
  rw [pairKey_data, pairKey_data] at hd
  obtain ⟨h1, h2⟩ := append_colon_inj p.1.data q.1.data p.2.data q.2.data hp hq hd
  have e1 : p.1 = q.1 := congrArg String.mk h1
  have e2 : p.2 = q.2 := congrArg String.mk h2
  exact Prod.ext e1 e2

/-- A serialized pair with comma-free components is comma-free. -/
theorem pairKey_no_comma (p : String × String)
    (h1 : ',' ∉ p.1.data) (h2 : ',' ∉ p.2.data) : ',' ∉ (pairKey p).data := by
  rw [pairKey_data]
  intro hmem
  rcases List.mem_append.mp hmem with hmem | hmem
  · exact h1 hmem
  · rcases List.mem_cons.mp hmem with hmem | hmem
    · exact absurd hmem (by decide)
    · exact h2 hmem

/-- Splitting the canonical key of a nonempty comma-free pair list recovers
the sorted serialized pairs. -/
theorem splitComma_membersKeyOf (pairs : List (String × String))
    (hne : pairs ≠ [])
    (hwf : ∀ p ∈ pairs, ',' ∉ p.1.data ∧ ',' ∉ p.2.data) :
    splitComma (membersKeyOf pairs) = sortStrings (pairs.map pairKey) := by
  show splitComma (joinComma (sortStrings (pairs.map pairKey)))
      = sortStrings (pairs.map pairKey)
  apply splitComma_joinComma
  · intro h0
    have hlen := (sortStrings_perm (pairs.map pairKey)).length_eq
    rw [h0] at hlen
    simp only [List.length_nil, List.length_map] at hlen
    exact hne (List.length_eq_zero.mp hlen.symm)
  · intro s hs
    have hs2 : s ∈ pairs.map pairKey := (sortStrings_perm _).mem_iff.mp hs
    obtain ⟨p, hp, hpe⟩ := List.mem_map.mp hs2
    rw [← hpe]
    exact pairKey_no_comma p (hwf p hp).1 (hwf p hp).2

/-- When no member fetch throws, the gathering loop completes with the
accumulated pairs. -/
theorem gatherMembers_eq_some (bk : MembersBackend) (fams : List String)
    (h : ∀ f ∈ fams, bk.membersResp f ≠ .thrown) :
    gatherMembers bk fams = some (allCurrentMembers bk fams) := by
  induction fams with
  | nil => rfl
  | cons f rest ih =>
    have hrest := ih (fun g hg => h g (List.mem_cons_of_mem _ hg))
    cases hf : bk.membersResp f with
    | thrown => exact absurd hf (h f (List.mem_cons_self _ _))
    | notOk => simp [gatherMembers, allCurrentMembers, hf, hrest]
    | ok ms =>
      simp only [gatherMembers, hf, hrest, Option.map_some, allCurrentMembers,
        List.flatMap_cons]
      exact congrArg some (congrArg (_ ++ ·) rfl)

/-- A thrown member fetch anywhere in the family list aborts the gathering
loop. -/
theorem gatherMembers_eq_none (bk : MembersBackend) (fams : List String)
    (h : ∃ f ∈ fams, bk.membersResp f = .thrown) :
    gatherMembers bk fams = none := by
  induction fams with
  | nil => simp at h
  | cons f rest ih =>
    obtain ⟨g, hg, hgt⟩ := h
    rcases List.mem_cons.mp hg with hgf | hgr
    · subst hgf
      simp [gatherMembers, hgt]
    · have hrest := ih ⟨g, hgr, hgt⟩
      cases hf : bk.membersResp f with
      | thrown => simp [gatherMembers, hf]
      | notOk => simp [gatherMembers, hf, hrest]
      | ok ms => simp [gatherMembers, hf, hrest]

/-- The canonical key of a nonempty pair list is never the empty string
(every serialized pair contains a colon, and further groups add commas),
so it survives the JS falsiness check on the stored baseline. -/
theorem membersKeyOf_ne_empty (pairs : List (String × String)) (hne : pairs ≠ []) :
    membersKeyOf pairs ≠ "" := by
  have hlne : sortStrings (pairs.map pairKey) ≠ [] := by
    intro h0
    have hlen := (sortStrings_perm (pairs.map pairKey)).length_eq
    rw [h0] at hlen
    simp only [List.length_nil, List.length_map] at hlen
    exact hne (List.length_eq_zero.mp hlen.symm)
  intro hkey
  have hdata : (membersKeyOf pairs).data = [] := by rw [hkey]
  match hl : sortStrings (pairs.map pairKey) with
  | [] => exact hlne hl
  | [s] =>
    have hs : membersKeyOf pairs = s := by
      show joinComma (sortStrings (pairs.map pairKey)) = s
      rw [hl]
      exact rfl
    have hmem : s ∈ pairs.map pairKey := by
      have hms : s ∈ sortStrings (pairs.map pairKey) := by
        rw [hl]
        exact List.mem_cons_self _ _
      exact (sortStrings_perm _).mem_iff.mp hms
    obtain ⟨p, hp, hpe⟩ := List.mem_map.mp hmem
    have hsd : s.data = p.1.data ++ ':' :: p.2.data := by rw [← hpe, pairKey_data]
    rw [hs, hsd] at hdata
    simp at hdata
  | s :: r :: rest =>
    have hjd : (membersKeyOf pairs).data
        = s.data ++ ',' :: (joinComma (r :: rest)).data := by
      show (joinComma (sortStrings (pairs.map pairKey))).data = _
      rw [hl]
      exact joinComma_cons_cons s r rest
    rw [hjd] at hdata
    simp at hdata

/-- Evaluation of a check cycle on the diff branch: families fetch ok,
nonempty family list, every member fetch completing, baseline present and
nonempty. -/
theorem checkNewMembers_diff_branch (bk : MembersBackend) (fams : List String)
    (last : String) (hresp : bk.familiesResp = .ok fams) (hne : fams.length ≠ 0)
    (hnothrow : ∀ f ∈ fams, bk.membersResp f ≠ .thrown) (hlast : last ≠ "") :
    checkNewMembers bk (some last)
      = ⟨countNewIds (splitComma last)
            (splitComma (membersKeyOf (allCurrentMembers bk fams))), some last⟩ := by
  simp only [checkNewMembers, hresp]
  rw [gatherMembers_eq_some bk fams hnothrow]
  simp [hne, hlast]

/- ===== Claim C5 ===== -/

/-- Claim C5 counterexample: with a stored baseline `F1:U1` and a check
cycle that completes but gathers an empty current membership (the one
family's members fetch answers non-ok), the computed count is 1 while the
number of pairs present in the current membership set but absent from the
baseline is 0 — the artifact of splitting the empty joined key into one
empty-string id. -/
theorem checkNewMembers_count_mismatch_on_empty_current :
    membersKeyOf [(("F1" : String), ("U1" : String))] = "F1:U1" ∧
      allCurrentMembers failingMembersBackend ["F1"] = [] ∧
      (checkNewMembers failingMembersBackend (some "F1:U1")).count = 1 ∧
      ((allCurrentMembers failingMembersBackend ["F1"]).dedup.filter
          fun p => decide (p ∉ [(("F1" : String), ("U1" : String))])).length = 0 := by
  refine ⟨by decide, rfl, by decide, rfl⟩

/-- Claim C5 (amended): whenever the families fetch succeeds, every member
fetch completes (none rejects or throws during parsing), the gathered
current membership is nonempty, the stored baseline is the canonical key
of a nonempty pair list, and all ids are free of the separator characters
(no colon in family ids, no comma in either component), the count
computed by the check cycle equals the number of distinct
`(family_id, user_id)` pairs present in the current membership but absent
from the baseline. -/
theorem checkNewMembers_count_eq_set_diff (bk : MembersBackend) (fams : List String)
    (baseline : List (String × String))
    (hresp : bk.familiesResp = .ok fams)
    (hnothrow : ∀ f ∈ fams, bk.membersResp f ≠ .thrown)
    (hcur : allCurrentMembers bk fams ≠ [])
    (hbase : baseline ≠ [])
    (hwf : ∀ p ∈ allCurrentMembers bk fams ++ baseline,
      ':' ∉ p.1.data ∧ ',' ∉ p.1.data ∧ ',' ∉ p.2.data) :
    (checkNewMembers bk (some (membersKeyOf baseline))).count
      = ((allCurrentMembers bk fams).dedup.filter
          fun p => decide (p ∉ baseline)).length := by
  have hwfc : ∀ p ∈ allCurrentMembers bk fams,
      ':' ∉ p.1.data ∧ ',' ∉ p.1.data ∧ ',' ∉ p.2.data :=
    fun p hp => hwf p (List.mem_append_left _ hp)
  have hwfb : ∀ p ∈ baseline, ':' ∉ p.1.data ∧ ',' ∉ p.1.data ∧ ',' ∉ p.2.data :=
    fun p hp => hwf p (List.mem_append_right _ hp)
  have hfne : fams.length ≠ 0 := by
    intro h0
    rw [List.length_eq_zero] at h0
    subst h0
    exact hcur rfl
  rw [checkNewMembers_diff_branch bk fams _ hresp hfne hnothrow
    (membersKeyOf_ne_empty baseline hbase)]
  show countNewIds (splitComma (membersKeyOf baseline))
      (splitComma (membersKeyOf (allCurrentMembers bk fams))) = _
  rw [splitComma_membersKeyOf baseline hbase
      (fun p hp => ⟨(hwfb p hp).2.1, (hwfb p hp).2.2⟩),
    splitComma_membersKeyOf (allCurrentMembers bk fams) hcur
      (fun p hp => ⟨(hwfc p hp).2.1, (hwfc p hp).2.2⟩)]
  unfold countNewIds
  have hpredeq : (fun m => decide (m ∉ sortStrings (baseline.map pairKey)))
      = fun m => decide (m ∉ baseline.map pairKey) :=
    funext fun m => decide_eq_decide.mpr (not_congr (sortStrings_perm _).mem_iff)
  rw [hpredeq]
  have hperm := ((sortStrings_perm ((allCurrentMembers bk fams).map pairKey)).dedup).filter
    (fun m => decide (m ∉ baseline.map pairKey))
  rw [hperm.length_eq]
  rw [dedup_map_injOn pairKey (allCurrentMembers bk fams)
    (fun x hx y hy hxy => pairKey_inj x y (hwfc x hx).1 (hwfc y hy).1 hxy)]
  rw [List.filter_map pairKey (allCurrentMembers bk fams).dedup, List.length_map]
  congr 1
  apply List.filter_congr
  intro p hp
  have hpc : p ∈ allCurrentMembers bk fams := List.mem_dedup.mp hp
  show decide (pairKey p ∉ baseline.map pairKey) = decide (p ∉ baseline)
  rw [decide_eq_decide]
  apply not_congr
  constructor
  · intro hm
    obtain ⟨q, hq, hqe⟩ := List.mem_map.mp hm
    have hqp : q = p := pairKey_inj q p (hwfb q hq).1 (hwfc p hpc).1 hqe
    exact hqp ▸ hq
  · exact fun hm => List.mem_map_of_mem _ hm

/-- Claim C5 witness: baseline `{F1:U1, F1:U2}`, current membership
`{F1:U1, F1:U2, F1:U3}`, every fetch completing; the count equals the set
difference and is 1. -/
theorem checkNewMembers_count_eq_set_diff_witness :
    grownFamilyBackend.familiesResp = .ok ["F1"] ∧
      (∀ f ∈ (["F1"] : List String), grownFamilyBackend.membersResp f ≠ .thrown) ∧
      allCurrentMembers grownFamilyBackend ["F1"] ≠ [] ∧
      baselinePairs ≠ [] ∧
      (∀ p ∈ allCurrentMembers grownFamilyBackend ["F1"] ++ baselinePairs,
        ':' ∉ p.1.data ∧ ',' ∉ p.1.data ∧ ',' ∉ p.2.data) ∧
      (checkNewMembers grownFamilyBackend (some (membersKeyOf baselinePairs))).count
        = ((allCurrentMembers grownFamilyBackend ["F1"]).dedup.filter
            fun p => decide (p ∉ baselinePairs)).length ∧
      (checkNewMembers grownFamilyBackend (some (membersKeyOf baselinePairs))).count = 1 :=
  ⟨rfl, by decide, by decide, by decide, by decide,
    checkNewMembers_count_eq_set_diff grownFamilyBackend ["F1"] baselinePairs rfl
      (by decide) (by decide) (by decide) (by decide),
    by decide⟩

/- ===== Claim C6 ===== -/

/-- Claim C6 counterexample: on the first-ever check of a user with no
families (families fetch ok, empty list), the count is 0 but the baseline
is NOT seeded — storage still holds no key afterwards. -/
theorem checkNewMembers_first_check_no_seed_without_family :
    (checkNewMembers ⟨.ok [], fun _ => .notOk⟩ none).count = 0 ∧
      (checkNewMembers ⟨.ok [], fun _ => .notOk⟩ none).storedAfter = none :=
  ⟨rfl, rfl⟩

/-- Claim C6 (amended): on the first-ever check for a user (no stored
baseline), the count is 0, and storage is seeded with the current
canonical membership key provided the families fetch succeeds with a
nonempty family list and every member fetch completes; when the user has
no families, the families fetch fails, or a member fetch throws (the
function-level catch), the check returns 0 without seeding. -/
theorem checkNewMembers_first_check_seeds (bk : MembersBackend) (fams : List String)
    (hresp : bk.familiesResp = .ok fams) (hne : fams.length ≠ 0) :
    ((∀ f ∈ fams, bk.membersResp f ≠ .thrown) →
        checkNewMembers bk none
          = ⟨0, some (membersKeyOf (allCurrentMembers bk fams))⟩) ∧
      ((∃ f ∈ fams, bk.membersResp f = .thrown) →
        checkNewMembers bk none = ⟨0, none⟩) := by
  constructor
  · intro hnothrow
    simp only [checkNewMembers, hresp]
    rw [gatherMembers_eq_some bk fams hnothrow]
    simp [hne]
  · intro hthrow
    simp only [checkNewMembers, hresp]
    rw [gatherMembers_eq_none bk fams hthrow]
    simp [hne]

/-- Claim C6 witness: first-ever check for a user in one family `F1` with
member `U1`, every fetch completing, returns 0 and seeds storage with the
key `F1:U1`. -/
theorem checkNewMembers_first_check_seeds_witness :
    firstCheckBackend.familiesResp = .ok ["F1"] ∧
      (["F1"] : List String).length ≠ 0 ∧
      (((∀ f ∈ (["F1"] : List String), firstCheckBackend.membersResp f ≠ .thrown) →
          checkNewMembers firstCheckBackend none
            = ⟨0, some (membersKeyOf (allCurrentMembers firstCheckBackend ["F1"]))⟩) ∧
        ((∃ f ∈ (["F1"] : List String), firstCheckBackend.membersResp f = .thrown) →
          checkNewMembers firstCheckBackend none = ⟨0, none⟩)) ∧
      membersKeyOf (allCurrentMembers firstCheckBackend ["F1"]) = "F1:U1" :=
  ⟨rfl, by decide,
    checkNewMembers_first_check_seeds firstCheckBackend ["F1"] rfl (by decide),
    by decide⟩
